import Mathlib

/-!
Verification of the association reconciliation engine of the
serverless-plugin-cloudfront-lambda-edge plugin (`src/index.js`).

The JavaScript source is shallowly embedded: stateful methods become
pure functions with explicit state passing, JS objects used as string
keyed maps become association lists with JS insert/lookup semantics,
thrown exceptions become `Except`, and backend (AWS) calls are recorded
in explicit call traces.
-/

set_option maxHeartbeats 1000000

namespace SlsEdge

/-- One Lambda@Edge association entry inside a behavior: an element of a
behavior's `LambdaFunctionAssociations.Items` array. -/
structure AssocItem where
  EventType : String
  LambdaFunctionARN : String
deriving DecidableEq, Repr

/-- The `LambdaFunctionAssociations` member of a cache behavior: the declared
count (`Quantity`) and the items array. -/
structure LambdaAssociations where
  Quantity : Nat
  Items : List AssocItem
deriving DecidableEq, Repr

/-- A cache behavior (default or additional).  `otherFields` stands for every
behavior field other than `LambdaFunctionAssociations`; the merge code never
reads or writes those, which the frame claims make precise. -/
structure CacheBehavior where
  LambdaFunctionAssociations : LambdaAssociations
  otherFields : String
deriving DecidableEq, Repr

/-- The `CacheBehaviors` member of a distribution configuration. -/
structure CacheBehaviorList where
  Quantity : Nat
  Items : List CacheBehavior
deriving DecidableEq, Repr

/-- A distribution configuration as consumed by
`_modifyDistributionConfigIfNeeded`: the default behavior, the additional
behaviors, and (opaquely) every other configuration field. -/
structure DistributionConfig where
  DefaultCacheBehavior : CacheBehavior
  CacheBehaviors : CacheBehaviorList
  otherFields : String
deriving DecidableEq, Repr

/-- A desired binding for one distribution: an element of `fns[distName]`
as built by `_getFunctionsToAssociate`. -/
structure DesiredFn where
  eventType : String
  fnARN : String
deriving DecidableEq, Repr

/-- `_.find(beh.LambdaFunctionAssociations.Items, { EventType: evt })`. -/
def findByEventType (items : List AssocItem) (evt : String) : Option AssocItem :=
  items.find? (fun it => it.EventType == evt)

/-- The JS code mutates, in place, the object returned by `_.find`
(`existing.LambdaFunctionARN = fn.fnARN`); in the embedding this is the
rewrite of the first item carrying the given event type. -/
def overwriteFirst (items : List AssocItem) (evt arn : String) : List AssocItem :=
  match items with
  | [] => []
  | it :: rest =>
      if it.EventType == evt then { it with LambdaFunctionARN := arn } :: rest
      else it :: overwriteFirst rest evt arn

/-- One iteration of the `fns.forEach` loop of `_associateFunctionsToBehavior`,
acting on the evolving items list together with the `changed` flag. -/
def assocStep (st : List AssocItem × Bool) (fn : DesiredFn) : List AssocItem × Bool :=
  match findByEventType st.1 fn.eventType with
  | none => (st.1 ++ [⟨fn.eventType, fn.fnARN⟩], true)
  | some existing =>
      if existing.LambdaFunctionARN == fn.fnARN then st
      else (overwriteFirst st.1 fn.eventType fn.fnARN, true)

/-- The items list produced by one loop iteration (flag-independent part). -/
def stepItems (items : List AssocItem) (fn : DesiredFn) : List AssocItem :=
  (assocStep (items, false) fn).1

/-- Whether one loop iteration appends or overwrites (mutates the list). -/
def stepMutates (items : List AssocItem) (fn : DesiredFn) : Bool :=
  (assocStep (items, false) fn).2

/-- The items list after running the whole `fns.forEach` loop. -/
def foldItems (items : List AssocItem) (fns : List DesiredFn) : List AssocItem :=
  (fns.foldl assocStep (items, false)).1

/-- Whether some iteration of the loop mutated the list. -/
def anyMut (items : List AssocItem) : List DesiredFn → Bool
  | [] => false
  | fn :: rest => stepMutates items fn || anyMut (stepItems items fn) rest

/-- `_associateFunctionsToBehavior(beh, fns)`: runs the loop, then, when
changed, recomputes `Quantity` from the items length; returns the mutated
behavior and the `changed` flag. -/
def associateFunctionsToBehavior (beh : CacheBehavior) (fns : List DesiredFn) :
    CacheBehavior × Bool :=
  let r := fns.foldl assocStep (beh.LambdaFunctionAssociations.Items, false)
  let q := if r.2 then r.1.length else beh.LambdaFunctionAssociations.Quantity
  ({ beh with LambdaFunctionAssociations := { Quantity := q, Items := r.1 } }, r.2)

/-- `_modifyDistributionConfigIfNeeded(distConfig, fns)`: merges the default
cache behavior, then each additional behavior, OR-ing the changed flags. -/
def modifyDistributionConfigIfNeeded (cfg : DistributionConfig)
    (fns : List DesiredFn) : DistributionConfig × Bool :=
  let d := associateFunctionsToBehavior cfg.DefaultCacheBehavior fns
  let r := cfg.CacheBehaviors.Items.foldl
    (fun (acc : List CacheBehavior × Bool) beh =>
      let b := associateFunctionsToBehavior beh fns
      (acc.1 ++ [b.1], acc.2 || b.2))
    ([], d.2)
  ({ cfg with
      DefaultCacheBehavior := d.1,
      CacheBehaviors := { cfg.CacheBehaviors with Items := r.1 } }, r.2)

def c1cfg : DistributionConfig :=
  { DefaultCacheBehavior :=
      { LambdaFunctionAssociations :=
          { Quantity := 1, Items := [⟨"origin-response", "keep-arn"⟩] },
        otherFields := "default-beh" },
    CacheBehaviors :=
      { Quantity := 1,
        Items := [{ LambdaFunctionAssociations :=
                      { Quantity := 1, Items := [⟨"viewer-response", "keep-arn-2"⟩] },
                    otherFields := "extra-beh" }] },
    otherFields := "rest-of-config" }

def c1fns : List DesiredFn := [⟨"viewer-request", "new-arn"⟩]

/-- A desired binding is already honoured by an items list: the first item
with its event type carries exactly its address. -/
def goodFor (items : List AssocItem) (fn : DesiredFn) : Bool :=
  match findByEventType items fn.eventType with
  | some ex => ex.LambdaFunctionARN == fn.fnARN
  | none => false

/-- The starting configuration of the C2 counterexample: no bindings at all. -/
def c2cfg : DistributionConfig :=
  { DefaultCacheBehavior :=
      { LambdaFunctionAssociations := { Quantity := 0, Items := [] },
        otherFields := "default-beh" },
    CacheBehaviors := { Quantity := 0, Items := [] },
    otherFields := "rest-of-config" }

/-- Two desired bindings for the same event type with different addresses. -/
def c2fns : List DesiredFn :=
  [⟨"viewer-request", "arn-a"⟩, ⟨"viewer-request", "arn-b"⟩]

def c3beh : CacheBehavior :=
  { LambdaFunctionAssociations :=
      { Quantity := 1, Items := [⟨"origin-response", "old-arn"⟩] },
    otherFields := "beh" }

/-- JS truthiness of a value that is either null (`none`) or a string. -/
def truthyOpt : Option String → Bool
  | none => false
  | some s => !(s == "")

/-- JS coercion of a possibly-null string used as an object key or inside
string concatenation (`null` coerces to the string "null"). -/
def jsKey : Option String → String
  | some s => s
  | none => "null"

/-- JS object property read (`obj[k]`), for objects modelled as association
lists in insertion order. -/
def jsObjGet {α : Type} (m : List (String × α)) (k : String) : Option α :=
  (m.find? (fun p => p.1 == k)).map (fun p => p.2)

/-- JS object property write (`obj[k] = v`): overwrites in place when the key
exists, otherwise appends (insertion order preserved). -/
def jsObjSet {α : Type} (m : List (String × α)) (k : String) (v : α) :
    List (String × α) :=
  match m with
  | [] => [(k, v)]
  | (k2, v2) :: rest =>
      if k2 == k then (k2, v) :: rest else (k2, v2) :: jsObjSet rest k v

/-- JS `Set.prototype.add` on a set modelled as a duplicate-free list in
insertion order. -/
def jsSetAdd (s : List String) (x : String) : List String :=
  if s.contains x then s else s ++ [x]

/-- The `Distribution` payload (plus ETag) returned by `getDistribution` and
by the `distributionDeployed` waiter. -/
structure DistData where
  Status : String
  DistributionConfig : DistributionConfig
  ETag : String
deriving DecidableEq, Repr

/-- The plugin's mutable instance state used by the updater and waiter:
`_distIdIsWaiting` (null initially, set when a wait starts, never cleared)
and the `_alreadyWaitingForUpdates` set. -/
structure PluginState where
  distIdIsWaiting : Option String
  alreadyWaitingForUpdates : List String
deriving DecidableEq, Repr

/-- The CloudFront control-plane calls the updater and waiter can issue. -/
inductive CFCall
  | getDistribution (id : String)
  | waitForDeployed (id : String)
  | updateDistribution (id : String)
deriving DecidableEq, Repr

/-- The backend: responses to the read and long-poll calls.  `waitForDeployed`
is the SDK's `waitFor('distributionDeployed')` primitive, which returns once
the distribution has converged. -/
structure Backend where
  getDistribution : String → DistData
  waitForDeployed : String → DistData

/-- Result of one waiter call: the updated plugin state, the value the
returned promise resolves with (none when the dedup guard short-circuits:
the JS function returns undefined), and the backend calls issued. -/
structure WaitOutcome where
  state : PluginState
  result : Option DistData
  calls : List CFCall
deriving DecidableEq, Repr

/-- `_waitForDistributionDeployed(distPhysicalID, distLogicalName)`: if
`this._distIdIsWaiting` is truthy the call returns undefined at once and
issues no SDK call; otherwise it records the identifier in
`_distIdIsWaiting` and long-polls the backend until deployed.  (The dot
printing timers and log lines are real-time console output, not modelled.) -/
def waitForDistributionDeployed (st : PluginState) (b : Backend)
    (distPhysicalID : String) : WaitOutcome :=
  if truthyOpt st.distIdIsWaiting then
    ⟨st, none, []⟩
  else
    ⟨{ st with distIdIsWaiting := some distPhysicalID },
     some (b.waitForDeployed distPhysicalID),
     [CFCall.waitForDeployed distPhysicalID]⟩

/-- One entry of the `dists` mapping handed to the updater: a resolved
distribution identifier plus the logical name. -/
structure DistInfo where
  distributionID : String
  distLogicalName : Option String
deriving DecidableEq, Repr

/-- `_updateDistributionAsNecessary(fns, dist)`: fetch the distribution; if
its status is not Deployed, replace the data with the waiter's result (which
is undefined when the dedup guard fires, making the following property access
throw); merge the desired bindings into the fetched configuration; when
changed, record the id+name in `_alreadyWaitingForUpdates`, submit the
update and wait again.  Returns the final plugin state (or the thrown error)
together with the trace of backend calls issued. -/
def updateDistributionAsNecessary (st : PluginState) (b : Backend)
    (fns : List (String × List DesiredFn)) (dist : DistInfo) :
    Except String PluginState × List CFCall :=
  let distID := dist.distributionID
  let data := b.getDistribution distID
  let t0 : List CFCall := [CFCall.getDistribution distID]
  let afterWait : PluginState × Option DistData × List CFCall :=
    if data.Status ≠ "Deployed" then
      let w := waitForDistributionDeployed st b distID
      (w.state, w.result, t0 ++ w.calls)
    else (st, some data, t0)
  match afterWait with
  | (_, none, t1) =>
      (Except.error "TypeError: cannot read properties of undefined", t1)
  | (st1, some d, t1) =>
      match jsObjGet fns (jsKey dist.distLogicalName) with
      | none => (Except.error "TypeError: fns[distName] is undefined", t1)
      | some fnsForDist =>
          let m := modifyDistributionConfigIfNeeded d.DistributionConfig fnsForDist
          if m.2 then
            let st2 := { st1 with
              alreadyWaitingForUpdates :=
                jsSetAdd st1.alreadyWaitingForUpdates
                  (distID ++ jsKey dist.distLogicalName) }
            let w2 := waitForDistributionDeployed st2 b distID
            (Except.ok w2.state, t1 ++ [CFCall.updateDistribution distID] ++ w2.calls)
          else (Except.ok st1, t1)

/-- The `for (const distKey of distKeys) await ...` loop of
`_updateDistributionsAsNecessary`: processes the entries in order, each
awaited to settlement before the next starts; an exception aborts the loop.
Each recorded backend call is tagged with the index of the entry whose
update issued it. -/
def updateDistributionsGo (b : Backend) (fns : List (String × List DesiredFn)) :
    PluginState → Nat → List DistInfo → Except String PluginState × List (Nat × CFCall)
  | st, _, [] => (Except.ok st, [])
  | st, k, d :: rest =>
      let r := updateDistributionAsNecessary st b fns d
      let tagged := r.2.map (fun c => (k, c))
      match r.1 with
      | Except.ok st2 =>
          let r2 := updateDistributionsGo b fns st2 (k + 1) rest
          (r2.1, tagged ++ r2.2)
      | Except.error e => (Except.error e, tagged)

/-- `_updateDistributionsAsNecessary(fns, dists)` over the iteration order of
the mapping's keys. -/
def updateDistributionsAsNecessary (st : PluginState) (b : Backend)
    (fns : List (String × List DesiredFn)) (dists : List DistInfo) :
    Except String PluginState × List (Nat × CFCall) :=
  updateDistributionsGo b fns st 0 dists

def c4state : PluginState := ⟨some "D1", []⟩

def c4backend : Backend :=
  { getDistribution := fun _ => ⟨"Deployed", c2cfg, "etag-1"⟩,
    waitForDeployed := fun _ => ⟨"Deployed", c2cfg, "etag-1"⟩ }

def VALID_EVENT_TYPES : List String :=
  ["viewer-request", "origin-request", "viewer-response", "origin-response"]

/-- The `lambdaAtEdge` annex of a function definition in the service
configuration. -/
structure LambdaAtEdge where
  distributionID : Option String
  distribution : Option String
  eventType : String
deriving DecidableEq, Repr

/-- A function definition: only the presence and content of the annex
matter to the plugin. -/
structure FnDef where
  lambdaAtEdge : Option LambdaAtEdge
deriving DecidableEq, Repr

/-- The `Environment` block of a function resource (variable names only). -/
structure EnvBlock where
  Variables : Option (List String)
deriving DecidableEq, Repr

/-- Properties of a template resource (only the environment block is read
or written by the plugin). -/
structure FnProperties where
  Environment : Option EnvBlock
deriving DecidableEq, Repr

/-- A CloudFormation template resource. -/
structure Resource where
  «Type» : String
  Properties : Option FnProperties
deriving DecidableEq, Repr

/-- `template.Resources`, in insertion order. -/
abbrev Template := List (String × Resource)

/-- Modelled from the spec: the provider naming helpers
`getLambdaLogicalId` and `getLambdaVersionOutputLogicalId` belong to the
host deployment framework (outside this repository); the spec treats them
as opaque handles deriving stable identifiers from the function name.
Modelled as suffixing. -/
def getLambdaLogicalId (fnName : String) : String :=
  fnName ++ "LambdaFunction"

/-- Modelled from the spec: see `getLambdaLogicalId`. -/
def getLambdaVersionOutputLogicalId (fnName : String) : String :=
  fnName ++ "LambdaFunctionQualifiedArn"

/-- One entry of `this._pendingAssociations`. -/
structure PendingAssoc where
  fnLogicalName : String
  distributionID : Option String
  distLogicalName : Option String
  fnCurrentVersionOutputName : String
  eventType : String
deriving DecidableEq, Repr

/-- The validation errors thrown by `_modifyLambdaFunctions`, each carrying
the data interpolated into its message. -/
inductive VErr
  | invalidEventType (evtType : String)
  | missingDistribution (distName : Option String)
  | incompleteDistRef (distId : String)
  | wrongResourceType (distName : Option String)
deriving DecidableEq, Repr

/-- Errors escaping `_modifyLambdaFunctions`: a thrown validation error or a
TypeError from dereferencing a missing resource in the strip phase. -/
inductive JsError
  | validation (e : VErr)
  | typeError (msg : String)
deriving DecidableEq, Repr

/-- The `|| null` normalization applied to both distribution reference
fields. -/
def jsOrNull (v : Option String) : Option String :=
  if truthyOpt v then v else none

/-- One iteration of the validation reduce in `_modifyLambdaFunctions`, for
a definition whose annex is present: normalize the reference fields,
resolve the named resource, and run the four checks in source order.  (At
the resource-type check, when `distId` is falsy the earlier checks
guarantee the resource was found, so the `getD` default is never the
deciding value.) -/
def validateFn (resources : Template) (fnName : String) (lae : LambdaAtEdge) :
    Except VErr PendingAssoc :=
  let distId := jsOrNull lae.distributionID
  let distName := jsOrNull lae.distribution
  let evtType := lae.eventType
  let dist := distName.bind (fun n => jsObjGet resources n)
  if !(VALID_EVENT_TYPES.contains evtType) then
    Except.error (VErr.invalidEventType evtType)
  else if dist.isNone && distId.isNone then
    Except.error (VErr.missingDistribution distName)
  else if distName.isNone && distId.isSome then
    Except.error (VErr.incompleteDistRef (distId.getD ""))
  else if distId.isNone
      && !((dist.map (fun d => d.«Type»)).getD "" == "AWS::CloudFront::Distribution") then
    Except.error (VErr.wrongResourceType distName)
  else
    Except.ok
      { fnLogicalName := getLambdaLogicalId fnName,
        distributionID := distId,
        distLogicalName := distName,
        fnCurrentVersionOutputName := getLambdaVersionOutputLogicalId fnName,
        eventType := evtType }

/-- The `_.reduce` phase of `_modifyLambdaFunctions`: entries without the
annex are skipped; the first invalid entry throws; valid entries accumulate
in order. -/
def validatePhase (resources : Template) :
    List (String × FnDef) → Except VErr (List PendingAssoc)
  | [] => Except.ok []
  | entry :: rest =>
      match entry.2.lambdaAtEdge with
      | none => validatePhase resources rest
      | some lae =>
          match validateFn resources entry.1 lae with
          | Except.error e => Except.error e
          | Except.ok pa =>
              match validatePhase resources rest with
              | Except.error e => Except.error e
              | Except.ok pas => Except.ok (pa :: pas)

/-- The `.each` phase of `_modifyLambdaFunctions`: for each pending
association, drop the `Environment` block of its function resource when
`Properties`, `Environment` and `Variables` are all truthy; dereferencing a
missing resource throws a TypeError. -/
def stripEnvVars (template : Template) :
    List PendingAssoc → Except JsError Template
  | [] => Except.ok template
  | pa :: rest =>
      match jsObjGet template pa.fnLogicalName with
      | none => Except.error (JsError.typeError "cannot read properties of undefined")
      | some res =>
          let template2 :=
            match res.Properties with
            | some props =>
                match props.Environment with
                | some env =>
                    if env.Variables.isSome then
                      jsObjSet template pa.fnLogicalName
                        { res with Properties := some { props with Environment := none } }
                    else template
                | none => template
            | none => template
          stripEnvVars template2 rest

/-- `_modifyLambdaFunctions(functions, template)`: the lodash chain runs the
validation reduce fully, then the env-stripping `each` over its result;
only then does `.value()` return and the assignment to
`this._pendingAssociations` happen.  A thrown error therefore leaves the
pending list unassigned and the template unstripped, which the `Except`
result models. -/
def modifyLambdaFunctions (functions : List (String × FnDef)) (template : Template) :
    Except JsError (List PendingAssoc × Template) :=
  match validatePhase template functions with
  | Except.error e => Except.error (JsError.validation e)
  | Except.ok pending =>
      match stripEnvVars template pending with
      | Except.error e => Except.error e
      | Except.ok t2 => Except.ok (pending, t2)

def c7template : Template :=
  [("MyBucket", { «Type» := "AWS::S3::Bucket", Properties := none }),
   ("fn1LambdaFunction", { «Type» := "AWS::Lambda::Function", Properties := none })]

def c7lae : LambdaAtEdge :=
  { distributionID := some "E123", distribution := some "MyBucket",
    eventType := "viewer-request" }

/-- One entry of the response to `describeStackResources`. -/
structure StackResource where
  LogicalResourceId : String
  PhysicalResourceId : String
deriving DecidableEq, Repr

/-- The CloudFormation calls the resolver can issue. -/
inductive CFNCall
  | describeStackResources (stackName : String)
deriving DecidableEq, Repr

/-- The `_.reduce` over `resp.StackResources` in the fallback branch of
`_getDistributionPhysicalIDs`: looks each pending association's logical name
up in the stack resources (a null name matches nothing) and throws when the
resource is absent. -/
def resolveFromStack (stackName : String) (stackResources : List StackResource) :
    List PendingAssoc → List (String × DistInfo) → Except String (List (String × DistInfo))
  | [], memo => Except.ok memo
  | p :: rest, memo =>
      match stackResources.find? (fun r =>
          match p.distLogicalName with
          | some n => r.LogicalResourceId == n
          | none => false) with
      | none =>
          Except.error ("Stack \x22" ++ stackName
            ++ "\x22 did not have a resource with logical name \x22"
            ++ jsKey p.distLogicalName ++ "\x22")
      | some r =>
          resolveFromStack stackName stackResources rest
            (jsObjSet memo p.fnLogicalName ⟨r.PhysicalResourceId, p.distLogicalName⟩)

/-- `_getDistributionPhysicalIDs()`: first builds `existingDistIds` from the
pending associations that already carry a truthy `distributionID`; when its
size equals the number of pending associations the mapping is returned with
no backend call, otherwise one `describeStackResources` call is issued and
the mapping rebuilt from the stack resources. -/
def getDistributionPhysicalIDs (pending : List PendingAssoc)
    (stackResources : List StackResource) (stackName : String) :
    Except String (List (String × DistInfo)) × List CFNCall :=
  let existingDistIds := pending.foldl
    (fun memo p =>
      if truthyOpt p.distributionID then
        jsObjSet memo p.fnLogicalName ⟨p.distributionID.getD "", p.distLogicalName⟩
      else memo)
    []
  if existingDistIds.length == pending.length then
    (Except.ok existingDistIds, [])
  else
    (resolveFromStack stackName stackResources pending [],
     [CFNCall.describeStackResources stackName])

def c6pending : List PendingAssoc :=
  [⟨"Fn1LambdaFunction", some "E111", some "Dist1", "Fn1LambdaFunctionQualifiedArn",
    "viewer-request"⟩,
   ⟨"Fn2LambdaFunction", some "E222", some "Dist2", "Fn2LambdaFunctionQualifiedArn",
    "origin-request"⟩]

theorem assocStep_eq (items : List AssocItem) (c : Bool) (fn : DesiredFn) :
    assocStep (items, c) fn = (stepItems items fn, c || stepMutates items fn) := by
  cases h : findByEventType items fn.eventType with
  | none => simp [assocStep, stepItems, stepMutates, h]
  | some ex =>
      by_cases harn : (ex.LambdaFunctionARN == fn.fnARN) = true
      · simp [assocStep, stepItems, stepMutates, h, harn]
      · simp [assocStep, stepItems, stepMutates, h, harn]

theorem foldl_assocStep (fns : List DesiredFn) :
    ∀ (items : List AssocItem) (c : Bool),
      fns.foldl assocStep (items, c) = (foldItems items fns, c || anyMut items fns) := by
  induction fns with
  | nil => intro items c; simp [foldItems, anyMut]
  | cons fn rest ih =>
      intro items c
      have e1 : List.foldl assocStep (items, c) (fn :: rest)
          = List.foldl assocStep (stepItems items fn, c || stepMutates items fn) rest := by
        rw [List.foldl_cons, assocStep_eq]
      have h2 : foldItems items (fn :: rest) = foldItems (stepItems items fn) rest := by
        unfold foldItems
        have e2 : List.foldl assocStep (items, false) (fn :: rest)
            = List.foldl assocStep (stepItems items fn, false || stepMutates items fn) rest := by
          rw [List.foldl_cons, assocStep_eq]
        rw [e2, ih, ih]
      have h3 : anyMut items (fn :: rest)
          = (stepMutates items fn || anyMut (stepItems items fn) rest) := rfl
      rw [e1, ih, h2, h3, Bool.or_assoc]

theorem foldItems_cons (items : List AssocItem) (fn : DesiredFn) (rest : List DesiredFn) :
    foldItems items (fn :: rest) = foldItems (stepItems items fn) rest := by
  unfold foldItems
  have e : List.foldl assocStep (items, false) (fn :: rest)
      = List.foldl assocStep (stepItems items fn, false || stepMutates items fn) rest := by
    rw [List.foldl_cons, assocStep_eq]
  rw [e, foldl_assocStep, foldl_assocStep]

theorem associate_items_eq (beh : CacheBehavior) (fns : List DesiredFn) :
    (associateFunctionsToBehavior beh fns).1.LambdaFunctionAssociations.Items
      = foldItems beh.LambdaFunctionAssociations.Items fns := by
  unfold associateFunctionsToBehavior
  rw [foldl_assocStep]

theorem associate_flag_eq (beh : CacheBehavior) (fns : List DesiredFn) :
    (associateFunctionsToBehavior beh fns).2
      = anyMut beh.LambdaFunctionAssociations.Items fns := by
  unfold associateFunctionsToBehavior
  rw [foldl_assocStep]
  simp

theorem associate_otherFields (beh : CacheBehavior) (fns : List DesiredFn) :
    (associateFunctionsToBehavior beh fns).1.otherFields = beh.otherFields := by
  unfold associateFunctionsToBehavior
  rfl

theorem behFold (fns : List DesiredFn) (behs : List CacheBehavior) :
    ∀ (acc : List CacheBehavior) (c : Bool),
      behs.foldl (fun (acc : List CacheBehavior × Bool) beh =>
          let b := associateFunctionsToBehavior beh fns
          (acc.1 ++ [b.1], acc.2 || b.2)) (acc, c)
      = (acc ++ behs.map (fun beh => (associateFunctionsToBehavior beh fns).1),
         c || behs.any (fun beh => (associateFunctionsToBehavior beh fns).2)) := by
  induction behs with
  | nil => intro acc c; simp
  | cons b bs ih =>
      intro acc c
      rw [List.foldl_cons]
      exact (ih _ _).trans (by simp [Bool.or_assoc])

theorem modifyConfig_spec (cfg : DistributionConfig) (fns : List DesiredFn) :
    modifyDistributionConfigIfNeeded cfg fns =
      ({ cfg with
          DefaultCacheBehavior := (associateFunctionsToBehavior cfg.DefaultCacheBehavior fns).1,
          CacheBehaviors := { cfg.CacheBehaviors with
            Items := cfg.CacheBehaviors.Items.map
              (fun beh => (associateFunctionsToBehavior beh fns).1) } },
        (associateFunctionsToBehavior cfg.DefaultCacheBehavior fns).2
          || cfg.CacheBehaviors.Items.any
              (fun beh => (associateFunctionsToBehavior beh fns).2)) := by
  simp only [modifyDistributionConfigIfNeeded]
  rw [behFold]
  simp

theorem overwriteFirst_getElem? (evt arn : String) :
    ∀ (items : List AssocItem) (i : Nat) (it : AssocItem),
      items[i]? = some it → it.EventType ≠ evt →
      (overwriteFirst items evt arn)[i]? = some it := by
  intro items
  induction items with
  | nil => intro i it h _; simp at h
  | cons hd tl ih =>
      intro i it h hne
      unfold overwriteFirst
      by_cases hhd : (hd.EventType == evt) = true
      · rw [if_pos hhd]
        cases i with
        | zero =>
            simp only [List.getElem?_cons_zero, Option.some.injEq] at h
            subst h
            exact absurd (by simpa using hhd) hne
        | succ n => simpa using h
      · rw [if_neg hhd]
        cases i with
        | zero => simpa using h
        | succ n =>
            simp only [List.getElem?_cons_succ] at h ⊢
            exact ih n it h hne

theorem stepItems_getElem? (items : List AssocItem) (fn : DesiredFn)
    (i : Nat) (it : AssocItem) (h : items[i]? = some it)
    (hne : it.EventType ≠ fn.eventType) :
    (stepItems items fn)[i]? = some it := by
  unfold stepItems assocStep
  cases hf : findByEventType items fn.eventType with
  | none =>
      have hi : i < items.length := by
        rcases List.getElem?_eq_some.mp h with ⟨hl, _⟩
        exact hl
      have happ : (items ++ [(⟨fn.eventType, fn.fnARN⟩ : AssocItem)])[i]? = items[i]? :=
        List.getElem?_append_left hi
      simpa [hf] using happ.trans h
  | some ex =>
      by_cases harn : (ex.LambdaFunctionARN == fn.fnARN) = true
      · simpa [hf, harn] using h
      · simpa [hf, harn] using overwriteFirst_getElem? fn.eventType fn.fnARN items i it h hne

theorem foldItems_getElem? (fns : List DesiredFn) :
    ∀ (items : List AssocItem) (i : Nat) (it : AssocItem),
      items[i]? = some it → it.EventType ∉ fns.map (fun f => f.eventType) →
      (foldItems items fns)[i]? = some it := by
  induction fns with
  | nil => intro items i it h _; simpa [foldItems] using h
  | cons fn rest ih =>
      intro items i it h hnotin
      rw [foldItems_cons]
      have h1 : it.EventType ≠ fn.eventType := by
        intro e
        exact hnotin (by simp [e])
      have h2 : it.EventType ∉ rest.map (fun f => f.eventType) := by
        intro m
        exact hnotin (by simp [List.mem_map] at m ⊢; tauto)
      exact ih (stepItems items fn) i it (stepItems_getElem? items fn i it h h1) h2

/-- Claim C1: after the merge, every binding in any behavior (default or
additional) whose event type is not among the desired bindings' event types
is the same binding, at the same position, as before the merge: the merge
never removes or reorders bindings of unrelated event types. -/
theorem claim1_unrelated_bindings_preserved (cfg : DistributionConfig) (fns : List DesiredFn) :
    (∀ (i : Nat) (it : AssocItem),
      cfg.DefaultCacheBehavior.LambdaFunctionAssociations.Items[i]? = some it →
      it.EventType ∉ fns.map (fun f => f.eventType) →
      (modifyDistributionConfigIfNeeded cfg fns).1.DefaultCacheBehavior.LambdaFunctionAssociations.Items[i]?
        = some it)
    ∧ (∀ (j : Nat) (beh : CacheBehavior),
        cfg.CacheBehaviors.Items[j]? = some beh →
        ∀ (i : Nat) (it : AssocItem),
          beh.LambdaFunctionAssociations.Items[i]? = some it →
          it.EventType ∉ fns.map (fun f => f.eventType) →
          ∃ beh2 : CacheBehavior,
            (modifyDistributionConfigIfNeeded cfg fns).1.CacheBehaviors.Items[j]? = some beh2
            ∧ beh2.LambdaFunctionAssociations.Items[i]? = some it) := by
  constructor
  · intro i it h hnot
    rw [modifyConfig_spec]
    simpa [associate_items_eq] using foldItems_getElem? fns _ i it h hnot
  · intro j beh hj i it h hnot
    rw [modifyConfig_spec]
    refine ⟨(associateFunctionsToBehavior beh fns).1, ?_, ?_⟩
    · simp [List.getElem?_map, hj]
    · simpa [associate_items_eq] using foldItems_getElem? fns _ i it h hnot

theorem claim1_witness :
    (modifyDistributionConfigIfNeeded c1cfg c1fns).1.DefaultCacheBehavior.LambdaFunctionAssociations.Items[0]?
        = some ⟨"origin-response", "keep-arn"⟩
    ∧ ∃ beh2 : CacheBehavior,
        (modifyDistributionConfigIfNeeded c1cfg c1fns).1.CacheBehaviors.Items[0]? = some beh2
        ∧ beh2.LambdaFunctionAssociations.Items[0]? = some ⟨"viewer-response", "keep-arn-2"⟩ :=
  ⟨(claim1_unrelated_bindings_preserved c1cfg c1fns).1 0 ⟨"origin-response", "keep-arn"⟩
      (by decide) (by decide),
   (claim1_unrelated_bindings_preserved c1cfg c1fns).2 0
      { LambdaFunctionAssociations :=
          { Quantity := 1, Items := [⟨"viewer-response", "keep-arn-2"⟩] },
        otherFields := "extra-beh" }
      (by decide) 0 ⟨"viewer-response", "keep-arn-2"⟩ (by decide) (by decide)⟩

theorem findByEventType_append_ne (items : List AssocItem) (x : AssocItem) (evt : String)
    (h : x.EventType ≠ evt) :
    findByEventType (items ++ [x]) evt = findByEventType items evt := by
  unfold findByEventType
  rw [List.find?_append]
  have hx : List.find? (fun it => it.EventType == evt) [x] = none := by
    rw [List.find?_cons_of_neg _ (by simpa using h)]
    rfl
  rw [hx]
  cases List.find? (fun it => it.EventType == evt) items <;> rfl

theorem findByEventType_overwrite_ne (evt evt2 arn : String) (hne : evt2 ≠ evt) :
    ∀ items : List AssocItem,
      findByEventType (overwriteFirst items evt2 arn) evt = findByEventType items evt := by
  intro items
  induction items with
  | nil => rfl
  | cons hd tl ih =>
      unfold overwriteFirst
      by_cases hhd : (hd.EventType == evt2) = true
      · rw [if_pos hhd]
        have h1 : hd.EventType = evt2 := by simpa using hhd
        have h2 : (hd.EventType == evt) = false := by
          simp [h1]
          exact hne
        unfold findByEventType
        rw [List.find?_cons_of_neg _ (by simp [h2]), List.find?_cons_of_neg _ (by simp [h2])]
      · rw [if_neg hhd]
        unfold findByEventType at ih ⊢
        by_cases h3 : (hd.EventType == evt) = true
        · rw [List.find?_cons_of_pos _ (by simpa using h3),
            List.find?_cons_of_pos _ (by simpa using h3)]
        · rw [List.find?_cons_of_neg _ (by simpa using h3),
            List.find?_cons_of_neg _ (by simpa using h3)]
          exact ih

theorem findByEventType_overwrite_self (evt arn : String) :
    ∀ (items : List AssocItem) (ex : AssocItem),
      findByEventType items evt = some ex →
      findByEventType (overwriteFirst items evt arn) evt
        = some { ex with LambdaFunctionARN := arn } := by
  intro items
  induction items with
  | nil => intro ex h; simp [findByEventType] at h
  | cons hd tl ih =>
      intro ex h
      unfold overwriteFirst
      by_cases hhd : (hd.EventType == evt) = true
      · rw [if_pos hhd]
        unfold findByEventType at h
        rw [List.find?_cons_of_pos _ (by simpa using hhd)] at h
        unfold findByEventType
        rw [List.find?_cons_of_pos _ (by simp; simpa using hhd)]
        simp at h
        rw [h]
      · rw [if_neg hhd]
        unfold findByEventType at h ⊢
        rw [List.find?_cons_of_neg _ (by simpa using hhd)] at h
        rw [List.find?_cons_of_neg _ (by simpa using hhd)]
        exact ih ex h

theorem goodFor_step_self (items : List AssocItem) (f : DesiredFn) :
    goodFor (stepItems items f) f = true := by
  unfold stepItems assocStep
  cases hf : findByEventType items f.eventType with
  | none =>
      simp only [hf]
      unfold goodFor
      have : findByEventType (items ++ [⟨f.eventType, f.fnARN⟩]) f.eventType
          = some ⟨f.eventType, f.fnARN⟩ := by
        unfold findByEventType at hf ⊢
        rw [List.find?_append, hf]
        simp
      rw [this]
      simp
  | some ex =>
      by_cases harn : (ex.LambdaFunctionARN == f.fnARN) = true
      · simp only [hf, harn, if_true]
        unfold goodFor
        rw [hf]
        exact harn
      · simp only [hf, harn, if_false, Bool.false_eq_true]
        unfold goodFor
        rw [findByEventType_overwrite_self f.eventType f.fnARN items ex hf]
        simp

theorem goodFor_step (items : List AssocItem) (f g : DesiredFn)
    (hgood : goodFor items f = true)
    (himp : g.eventType = f.eventType → g.fnARN = f.fnARN) :
    goodFor (stepItems items g) f = true := by
  unfold stepItems assocStep
  cases hf : findByEventType items g.eventType with
  | none =>
      simp only [hf]
      by_cases hev : g.eventType = f.eventType
      · exfalso
        unfold goodFor at hgood
        rw [← hev, hf] at hgood
        simp at hgood
      · unfold goodFor at hgood ⊢
        rw [findByEventType_append_ne items _ f.eventType (by simpa using hev)]
        exact hgood
  | some ex =>
      by_cases harn : (ex.LambdaFunctionARN == g.fnARN) = true
      · simpa only [hf, harn, if_true] using hgood
      · simp only [hf, harn, if_false, Bool.false_eq_true]
        by_cases hev : g.eventType = f.eventType
        · exfalso
          unfold goodFor at hgood
          rw [← hev, hf] at hgood
          have h1 : ex.LambdaFunctionARN = f.fnARN := by simpa using hgood
          have h2 : g.fnARN = f.fnARN := himp hev
          exact harn (by simp [h1, h2])
        · unfold goodFor at hgood ⊢
          rw [findByEventType_overwrite_ne f.eventType g.eventType g.fnARN hev items]
          exact hgood

theorem goodFor_fold (fns : List DesiredFn) :
    ∀ (items : List AssocItem) (f : DesiredFn),
      goodFor items f = true →
      (∀ g ∈ fns, g.eventType = f.eventType → g.fnARN = f.fnARN) →
      goodFor (foldItems items fns) f = true := by
  induction fns with
  | nil => intro items f h _; simpa [foldItems] using h
  | cons g rest ih =>
      intro items f h hcomp
      rw [foldItems_cons]
      exact ih (stepItems items g) f
        (goodFor_step items f g h (hcomp g (List.mem_cons_self _ _)))
        (fun x hx => hcomp x (List.mem_cons_of_mem _ hx))

theorem goodFor_run (fns : List DesiredFn) :
    ∀ items : List AssocItem,
      (∀ f ∈ fns, ∀ g ∈ fns, f.eventType = g.eventType → f.fnARN = g.fnARN) →
      ∀ f ∈ fns, goodFor (foldItems items fns) f = true := by
  induction fns with
  | nil => intro items _ f hf; simp at hf
  | cons fn rest ih =>
      intro items Hdup f hf
      rw [foldItems_cons]
      rcases List.mem_cons.mp hf with heq | hfr
      · subst heq
        apply goodFor_fold rest (stepItems items f) f (goodFor_step_self items f)
        intro g hg
        exact Hdup g (List.mem_cons_of_mem _ hg) f (List.mem_cons_self _ _)
      · exact ih (stepItems items fn)
          (fun a ha b hb => Hdup a (List.mem_cons_of_mem _ ha) b (List.mem_cons_of_mem _ hb))
          f hfr

theorem step_noop (items : List AssocItem) (f : DesiredFn)
    (h : goodFor items f = true) :
    stepItems items f = items ∧ stepMutates items f = false := by
  unfold goodFor at h
  unfold stepItems stepMutates assocStep
  cases hf : findByEventType items f.eventType with
  | none => rw [hf] at h; simp at h
  | some ex =>
      rw [hf] at h
      simp only [hf]
      rw [if_pos h]
      exact ⟨rfl, rfl⟩

theorem run_noop (fns : List DesiredFn) :
    ∀ items : List AssocItem,
      (∀ f ∈ fns, goodFor items f = true) →
      foldItems items fns = items ∧ anyMut items fns = false := by
  induction fns with
  | nil => intro items _; exact ⟨rfl, rfl⟩
  | cons fn rest ih =>
      intro items hall
      have h0 := step_noop items fn (hall fn (List.mem_cons_self _ _))
      have ihr := ih items (fun f hf => hall f (List.mem_cons_of_mem _ hf))
      constructor
      · rw [foldItems_cons, h0.1]
        exact ihr.1
      · have h1 : anyMut items (fn :: rest)
            = (stepMutates items fn || anyMut (stepItems items fn) rest) := rfl
        rw [h1, h0.1, h0.2, ihr.2]
        rfl

theorem associate_noop (b : CacheBehavior) (fns : List DesiredFn)
    (hgood : ∀ f ∈ fns, goodFor b.LambdaFunctionAssociations.Items f = true) :
    associateFunctionsToBehavior b fns = (b, false) := by
  have hrun := run_noop fns _ hgood
  unfold associateFunctionsToBehavior
  rw [foldl_assocStep, hrun.1, hrun.2]
  rfl

theorem associate_idem (beh : CacheBehavior) (fns : List DesiredFn)
    (Hdup : ∀ f ∈ fns, ∀ g ∈ fns, f.eventType = g.eventType → f.fnARN = g.fnARN) :
    associateFunctionsToBehavior (associateFunctionsToBehavior beh fns).1 fns
      = ((associateFunctionsToBehavior beh fns).1, false) := by
  apply associate_noop
  rw [associate_items_eq]
  exact goodFor_run fns beh.LambdaFunctionAssociations.Items Hdup

/-- Claim C2 counterexample: with desired bindings
`[(viewer-request, arn-a), (viewer-request, arn-b)]` against an empty
configuration, the second run of the merger again overwrites the binding
(arn-b to arn-a and back) and returns changed = true, not false. -/
theorem claim2_counterexample :
    (modifyDistributionConfigIfNeeded (modifyDistributionConfigIfNeeded c2cfg c2fns).1 c2fns).2
      = true := by decide

/-- Claim C2 (amended): provided no two desired bindings share an event type
while carrying different addresses, running the Behavior Merger a second time
with the same desired bindings returns changed = false and leaves the
configuration identical to the result of the first run.  (As stated the claim
fails when the desired list binds one event type to two different addresses:
each run then performs the same overwrites again and reports changed = true.) -/
theorem claim2_idempotent (cfg : DistributionConfig) (fns : List DesiredFn)
    (Hdup : ∀ f ∈ fns, ∀ g ∈ fns, f.eventType = g.eventType → f.fnARN = g.fnARN) :
    modifyDistributionConfigIfNeeded (modifyDistributionConfigIfNeeded cfg fns).1 fns
      = ((modifyDistributionConfigIfNeeded cfg fns).1, false) := by
  have hfst : ∀ beh : CacheBehavior,
      (associateFunctionsToBehavior (associateFunctionsToBehavior beh fns).1 fns).1
        = (associateFunctionsToBehavior beh fns).1 := by
    intro beh
    rw [associate_idem beh fns Hdup]
  have hsnd : ∀ beh : CacheBehavior,
      (associateFunctionsToBehavior (associateFunctionsToBehavior beh fns).1 fns).2
        = false := by
    intro beh
    rw [associate_idem beh fns Hdup]
  rw [modifyConfig_spec cfg fns]
  rw [modifyConfig_spec]
  simp [List.map_map, List.any_map, Function.comp, hfst, hsnd]

/-- Witness for the amended C2 at a concrete input satisfying the proviso. -/
theorem claim2_witness :
    modifyDistributionConfigIfNeeded
        (modifyDistributionConfigIfNeeded c2cfg [⟨"viewer-request", "arn-a"⟩]).1
        [⟨"viewer-request", "arn-a"⟩]
      = ((modifyDistributionConfigIfNeeded c2cfg [⟨"viewer-request", "arn-a"⟩]).1, false) :=
  claim2_idempotent c2cfg [⟨"viewer-request", "arn-a"⟩] (by
    intro f hf g hg _
    simp at hf hg
    rw [hf, hg])

theorem findByEventType_first (evt : String) :
    ∀ (items : List AssocItem) (ex : AssocItem),
      findByEventType items evt = some ex →
      ∃ j : Nat, items[j]? = some ex ∧
        ∀ k : Nat, k < j → ∀ itk : AssocItem, items[k]? = some itk → itk.EventType ≠ evt := by
  intro items
  induction items with
  | nil => intro ex h; simp [findByEventType] at h
  | cons hd tl ih =>
      intro ex h
      unfold findByEventType at h
      by_cases hhd : (hd.EventType == evt) = true
      · rw [List.find?_cons_of_pos _ (by simpa using hhd)] at h
        refine ⟨0, by simpa using h, ?_⟩
        intro k hk
        exact absurd hk (Nat.not_lt_zero k)
      · rw [List.find?_cons_of_neg _ (by simpa using hhd)] at h
        obtain ⟨j, hj, hmin⟩ := ih ex h
        refine ⟨j + 1, by simpa using hj, ?_⟩
        intro k hk itk hitk
        cases k with
        | zero =>
            have hh : hd = itk := by simpa using hitk
            subst hh
            intro he
            exact hhd (by simp [he])
        | succ m =>
            exact hmin m (Nat.lt_of_succ_lt_succ hk) itk (by simpa using hitk)

theorem overwriteFirst_eq_set (evt arn : String) :
    ∀ (items : List AssocItem) (j : Nat) (ex : AssocItem),
      items[j]? = some ex → ex.EventType = evt →
      (∀ k : Nat, k < j → ∀ itk : AssocItem, items[k]? = some itk → itk.EventType ≠ evt) →
      overwriteFirst items evt arn = items.set j { ex with LambdaFunctionARN := arn } := by
  intro items
  induction items with
  | nil => intro j ex h; simp at h
  | cons hd tl ih =>
      intro j ex h hevt hmin
      unfold overwriteFirst
      cases j with
      | zero =>
          have hex : hd = ex := by simpa using h
          subst hex
          rw [if_pos (by simp [hevt])]
          rfl
      | succ m =>
          have hhd : hd.EventType ≠ evt := hmin 0 (Nat.succ_pos m) hd (by simp)
          rw [if_neg (by simpa using hhd)]
          rw [ih m ex (by simpa using h) hevt
            (fun k hk itk hitk => hmin (k + 1) (Nat.succ_lt_succ hk) itk (by simpa using hitk))]
          rfl

theorem anyMut_iff (fns : List DesiredFn) :
    ∀ items : List AssocItem,
      anyMut items fns = true ↔
        ∃ (i : Nat) (f : DesiredFn), fns[i]? = some f
          ∧ stepMutates (foldItems items (fns.take i)) f = true := by
  induction fns with
  | nil => intro items; simp [anyMut]
  | cons fn rest ih =>
      intro items
      have h1 : anyMut items (fn :: rest)
          = (stepMutates items fn || anyMut (stepItems items fn) rest) := rfl
      constructor
      · intro h
        rw [h1, Bool.or_eq_true] at h
        rcases h with hm | hrest
        · exact ⟨0, fn, by simp, by simpa [foldItems] using hm⟩
        · obtain ⟨i, f, hf, hstep⟩ := (ih (stepItems items fn)).mp hrest
          refine ⟨i + 1, f, by simpa using hf, ?_⟩
          rw [List.take_succ_cons, foldItems_cons]
          exact hstep
      · rintro ⟨i, f, hf, hstep⟩
        rw [h1, Bool.or_eq_true]
        cases i with
        | zero =>
            left
            have hh : fn = f := by simpa using hf
            subst hh
            simpa [foldItems] using hstep
        | succ m =>
            right
            apply (ih (stepItems items fn)).mpr
            refine ⟨m, f, by simpa using hf, ?_⟩
            rw [List.take_succ_cons, foldItems_cons] at hstep
            exact hstep

/-- Claim C3: for every behavior and desired binding processed in declaration
order over the evolving binding list: an absent event type appends a new
binding at the end and marks changed; a present event type with a different
address overwrites the first such binding's address in place, preserving its
position, and marks changed; a present event type with the same address
leaves the list untouched; and the merge returns true iff at least one
iteration appended or overwrote. -/
theorem claim3_merge_per_binding (beh : CacheBehavior) (fns : List DesiredFn) :
    ((associateFunctionsToBehavior beh fns).1.LambdaFunctionAssociations.Items
        = foldItems beh.LambdaFunctionAssociations.Items fns)
    ∧ (∀ (items : List AssocItem) (fn : DesiredFn),
        (∀ it ∈ items, it.EventType ≠ fn.eventType) →
        stepItems items fn = items ++ [⟨fn.eventType, fn.fnARN⟩]
          ∧ stepMutates items fn = true)
    ∧ (∀ (items : List AssocItem) (fn : DesiredFn) (ex : AssocItem),
        findByEventType items fn.eventType = some ex →
        ex.LambdaFunctionARN = fn.fnARN →
        stepItems items fn = items ∧ stepMutates items fn = false)
    ∧ (∀ (items : List AssocItem) (fn : DesiredFn) (ex : AssocItem),
        findByEventType items fn.eventType = some ex →
        ex.LambdaFunctionARN ≠ fn.fnARN →
        ∃ j : Nat, items[j]? = some ex
          ∧ (∀ k : Nat, k < j → ∀ itk : AssocItem, items[k]? = some itk →
              itk.EventType ≠ fn.eventType)
          ∧ stepItems items fn = items.set j { ex with LambdaFunctionARN := fn.fnARN }
          ∧ stepMutates items fn = true)
    ∧ ((associateFunctionsToBehavior beh fns).2 = true ↔
        ∃ (i : Nat) (f : DesiredFn), fns[i]? = some f
          ∧ stepMutates (foldItems beh.LambdaFunctionAssociations.Items (fns.take i)) f
              = true) := by
  refine ⟨associate_items_eq beh fns, ?_, ?_, ?_, ?_⟩
  · intro items fn habsent
    have hnone : findByEventType items fn.eventType = none := by
      unfold findByEventType
      rw [List.find?_eq_none]
      intro it hit
      simpa using habsent it hit
    constructor
    · simp [stepItems, assocStep, hnone]
    · simp [stepMutates, assocStep, hnone]
  · intro items fn ex hf harn
    have hb : (ex.LambdaFunctionARN == fn.fnARN) = true := by simp [harn]
    constructor
    · simp [stepItems, assocStep, hf, hb]
    · simp [stepMutates, assocStep, hf, hb]
  · intro items fn ex hf harn
    have hb : (ex.LambdaFunctionARN == fn.fnARN) = false := by
      simp
      exact harn
    obtain ⟨j, hj, hmin⟩ := findByEventType_first fn.eventType items ex hf
    have hevt : ex.EventType = fn.eventType := by
      have := List.find?_some hf
      simpa using this
    refine ⟨j, hj, hmin, ?_, ?_⟩
    · rw [show stepItems items fn = overwriteFirst items fn.eventType fn.fnARN by
        simp [stepItems, assocStep, hf, hb]]
      exact overwriteFirst_eq_set fn.eventType fn.fnARN items j ex hj hevt hmin
    · simp [stepMutates, assocStep, hf, hb]
  · rw [associate_flag_eq]
    exact anyMut_iff fns beh.LambdaFunctionAssociations.Items

theorem claim3_witness :
    (stepItems [⟨"origin-response", "old-arn"⟩] ⟨"viewer-request", "v1"⟩
        = [⟨"origin-response", "old-arn"⟩, ⟨"viewer-request", "v1"⟩]
      ∧ stepMutates [⟨"origin-response", "old-arn"⟩] ⟨"viewer-request", "v1"⟩ = true)
    ∧ (stepItems [⟨"origin-response", "old-arn"⟩] ⟨"origin-response", "old-arn"⟩
        = [⟨"origin-response", "old-arn"⟩]
      ∧ stepMutates [⟨"origin-response", "old-arn"⟩] ⟨"origin-response", "old-arn"⟩ = false)
    ∧ (∃ j : Nat,
        ([⟨"origin-response", "old-arn"⟩] : List AssocItem)[j]?
            = some ⟨"origin-response", "old-arn"⟩
        ∧ (∀ k : Nat, k < j → ∀ itk : AssocItem,
            ([⟨"origin-response", "old-arn"⟩] : List AssocItem)[k]? = some itk →
            itk.EventType ≠ "origin-response")
        ∧ stepItems [⟨"origin-response", "old-arn"⟩] ⟨"origin-response", "new-arn"⟩
            = [⟨"origin-response", "old-arn"⟩].set j ⟨"origin-response", "new-arn"⟩
        ∧ stepMutates [⟨"origin-response", "old-arn"⟩] ⟨"origin-response", "new-arn"⟩ = true)
    ∧ ((associateFunctionsToBehavior c3beh [⟨"origin-response", "new-arn"⟩]).2 = true) :=
  ⟨(claim3_merge_per_binding c3beh []).2.1 _ ⟨"viewer-request", "v1"⟩ (by decide),
   (claim3_merge_per_binding c3beh []).2.2.1 _ ⟨"origin-response", "old-arn"⟩
      ⟨"origin-response", "old-arn"⟩ (by decide) rfl,
   (claim3_merge_per_binding c3beh []).2.2.2.1 _ ⟨"origin-response", "new-arn"⟩
      ⟨"origin-response", "old-arn"⟩ (by decide) (by decide),
   (claim3_merge_per_binding c3beh [⟨"origin-response", "new-arn"⟩]).2.2.2.2.mpr
      ⟨0, ⟨"origin-response", "new-arn"⟩, by decide, by decide⟩⟩

/-- Claim C9: the merge mutates nothing in the configuration outside the
`LambdaFunctionAssociations` member (items and declared count) of the default
behavior and of the additional behaviors: the other configuration fields, the
`CacheBehaviors` count, the number and order of behaviors, and every other
behavior field are unchanged. -/
theorem claim9_merge_frame (cfg : DistributionConfig) (fns : List DesiredFn) :
    ((modifyDistributionConfigIfNeeded cfg fns).1.otherFields = cfg.otherFields)
    ∧ ((modifyDistributionConfigIfNeeded cfg fns).1.DefaultCacheBehavior.otherFields
        = cfg.DefaultCacheBehavior.otherFields)
    ∧ ((modifyDistributionConfigIfNeeded cfg fns).1.CacheBehaviors.Quantity
        = cfg.CacheBehaviors.Quantity)
    ∧ ((modifyDistributionConfigIfNeeded cfg fns).1.CacheBehaviors.Items.length
        = cfg.CacheBehaviors.Items.length)
    ∧ (∀ (j : Nat) (beh : CacheBehavior),
        cfg.CacheBehaviors.Items[j]? = some beh →
        ∃ beh2 : CacheBehavior,
          (modifyDistributionConfigIfNeeded cfg fns).1.CacheBehaviors.Items[j]? = some beh2
          ∧ beh2.otherFields = beh.otherFields) := by
  rw [modifyConfig_spec]
  refine ⟨rfl, associate_otherFields _ _, rfl, by simp, ?_⟩
  intro j beh hj
  exact ⟨(associateFunctionsToBehavior beh fns).1, by simp [hj],
    associate_otherFields _ _⟩

theorem claim9_witness :
    ∃ beh2 : CacheBehavior,
      (modifyDistributionConfigIfNeeded c1cfg c1fns).1.CacheBehaviors.Items[0]? = some beh2
      ∧ beh2.otherFields = "extra-beh" :=
  (claim9_merge_frame c1cfg c1fns).2.2.2.2 0
    { LambdaFunctionAssociations :=
        { Quantity := 1, Items := [⟨"viewer-response", "keep-arn-2"⟩] },
      otherFields := "extra-beh" }
    (by decide)

/-- Claim C4 counterexample: the dedup guard checks the single
`_distIdIsWaiting` slot for truthiness, not membership of the requested
identifier.  With the registry holding only "D1", a wait for the different,
unregistered identifier "D2" returns immediately with no result, issues no
poll, and registers nothing — where the claim requires it to register "D2"
and poll the backend. -/
theorem claim4_counterexample :
    c4state.distIdIsWaiting ≠ some "D2"
    ∧ waitForDistributionDeployed c4state c4backend "D2" = ⟨c4state, none, []⟩ := by
  constructor
  · decide
  · rfl

/-- Claim C4 (amended): the dedup guard is global rather than per identifier:
if the wait registry already records any (non-empty) identifier — whether or
not it is the requested one — the call returns immediately with no result,
no poll, and an unchanged registry; only when the registry is empty does the
call register the requested identifier and poll the backend until the
distribution is deployed. -/
theorem claim4_wait_dedup_global (st : PluginState) (b : Backend) (id : String) :
    (truthyOpt st.distIdIsWaiting = true →
      waitForDistributionDeployed st b id = ⟨st, none, []⟩)
    ∧ (truthyOpt st.distIdIsWaiting = false →
      waitForDistributionDeployed st b id
        = ⟨{ st with distIdIsWaiting := some id },
           some (b.waitForDeployed id), [CFCall.waitForDeployed id]⟩) := by
  constructor
  · intro h
    simp [waitForDistributionDeployed, h]
  · intro h
    simp [waitForDistributionDeployed, h]

theorem claim4_witness :
    waitForDistributionDeployed c4state c4backend "D1" = ⟨c4state, none, []⟩
    ∧ waitForDistributionDeployed ⟨none, []⟩ c4backend "D1"
        = ⟨⟨some "D1", []⟩, some (c4backend.waitForDeployed "D1"),
           [CFCall.waitForDeployed "D1"]⟩ :=
  ⟨(claim4_wait_dedup_global c4state c4backend "D1").1 (by decide),
   (claim4_wait_dedup_global ⟨none, []⟩ c4backend "D1").2 (by decide)⟩

theorem updateGo_tags (b : Backend) (fns : List (String × List DesiredFn)) :
    ∀ (dists : List DistInfo) (st : PluginState) (k : Nat),
      (∀ p ∈ (updateDistributionsGo b fns st k dists).2,
          k ≤ p.1 ∧ p.1 < k + dists.length)
      ∧ List.Pairwise (fun p q : Nat × CFCall => p.1 ≤ q.1)
          (updateDistributionsGo b fns st k dists).2 := by
  intro dists
  induction dists with
  | nil =>
      intro st k
      constructor
      · intro p hp
        simp [updateDistributionsGo] at hp
      · simp [updateDistributionsGo]
  | cons d rest ih =>
      intro st k
      have hconst : ∀ (l : List CFCall),
          List.Pairwise (fun p q : Nat × CFCall => p.1 ≤ q.1)
            (l.map (fun c => (k, c))) := by
        intro l
        rw [List.pairwise_map]
        induction l with
        | nil => exact List.Pairwise.nil
        | cons c cs ihl => exact List.Pairwise.cons (fun x _ => le_refl k) ihl
      simp only [updateDistributionsGo]
      cases hr : (updateDistributionAsNecessary st b fns d).1 with
      | ok st2 =>
          simp only [hr]
          obtain ⟨ihb, ihp⟩ := ih st2 (k + 1)
          constructor
          · intro p hp
            rcases List.mem_append.mp hp with h1 | h2
            · obtain ⟨c, _, rfl⟩ := List.mem_map.mp h1
              refine ⟨le_refl k, ?_⟩
              simp only [List.length_cons]
              omega
            · obtain ⟨h3, h4⟩ := ihb p h2
              refine ⟨Nat.le_of_succ_le h3, ?_⟩
              simp only [List.length_cons]
              omega
          · rw [List.pairwise_append]
            refine ⟨hconst _, ihp, ?_⟩
            intro a ha p hp
            obtain ⟨c, _, rfl⟩ := List.mem_map.mp ha
            exact Nat.le_of_succ_le (ihb p hp).1
      | error e =>
          simp only [hr]
          constructor
          · intro p hp
            obtain ⟨c, _, rfl⟩ := List.mem_map.mp hp
            refine ⟨le_refl k, ?_⟩
            simp only [List.length_cons]
            omega
          · exact hconst _

/-- Claim C5: within one reconciliation pass, distribution updates are
processed strictly sequentially in the iteration order of the mapping: each
backend call of the update of a later entry appears in the trace only after
every call of every earlier entry, so the index tags along the trace are
monotone and no two distribution updates interleave. -/
theorem claim5_sequential_updates (st : PluginState) (b : Backend)
    (fns : List (String × List DesiredFn)) (dists : List DistInfo) :
    List.Pairwise (fun p q : Nat × CFCall => p.1 ≤ q.1)
      (updateDistributionsAsNecessary st b fns dists).2
    ∧ ∀ p ∈ (updateDistributionsAsNecessary st b fns dists).2,
        p.1 < dists.length := by
  obtain ⟨hb, hp⟩ := updateGo_tags b fns dists st 0
  refine ⟨hp, ?_⟩
  intro p hmem
  simpa using (hb p hmem).2

/-- Claim C7 counterexample: a declaration whose named reference resolves to
an S3 bucket (not a distribution) but which also supplies a raw identifier
passes validation: the resource-type check is guarded by `!distId` and is
skipped whenever a raw identifier is present, so no error is raised where
the claim requires failure regardless of the raw identifier. -/
theorem claim7_counterexample :
    validateFn c7template "fn1" c7lae
      = Except.ok
          { fnLogicalName := "fn1LambdaFunction",
            distributionID := some "E123",
            distLogicalName := some "MyBucket",
            fnCurrentVersionOutputName := "fn1LambdaFunctionQualifiedArn",
            eventType := "viewer-request" }
    ∧ (modifyLambdaFunctions [("fn1", ⟨some c7lae⟩)] c7template).isOk = true := by
  constructor
  · rfl
  · rfl

/-- Claim C7 (amended): the wrong-resource-type check applies only when no
raw backend identifier is supplied: a declaration whose named reference
resolves to a non-distribution template resource fails validation with
WrongResourceType naming that resource provided its event type is valid and
its raw identifier field is empty; when a raw identifier is supplied the
resource-type check is skipped entirely. -/
theorem claim7_wrong_type_without_id (resources : Template) (fnName : String)
    (lae : LambdaAtEdge) (n : String) (res : Resource)
    (hn : jsOrNull lae.distribution = some n)
    (hres : jsObjGet resources n = some res)
    (htype : res.«Type» ≠ "AWS::CloudFront::Distribution")
    (hid : jsOrNull lae.distributionID = none)
    (hevt : VALID_EVENT_TYPES.contains lae.eventType = true) :
    validateFn resources fnName lae = Except.error (VErr.wrongResourceType (some n)) := by
  simp only [validateFn, hn, hid, hevt]
  simp [hres, htype]

theorem claim7_witness :
    validateFn c7template "fn1"
        ⟨none, some "MyBucket", "viewer-request"⟩
      = Except.error (VErr.wrongResourceType (some "MyBucket")) :=
  claim7_wrong_type_without_id c7template "fn1"
    ⟨none, some "MyBucket", "viewer-request"⟩ "MyBucket"
    ⟨"AWS::S3::Bucket", none⟩ (by decide) (by decide) (by decide) (by decide) (by decide)

/-- Claim C8: a declaration supplying a raw backend distribution identifier
but no named-resource reference always fails validation, and whenever its
event type is one of the four valid values the failure is the
incomplete-distribution-reference error carrying (naming) that identifier.
(With an invalid event type the earlier event-type check fails first.) -/
theorem claim8_incomplete_reference (resources : Template) (fnName : String)
    (lae : LambdaAtEdge) (i : String)
    (hid : jsOrNull lae.distributionID = some i)
    (hname : jsOrNull lae.distribution = none) :
    (∃ e, validateFn resources fnName lae = Except.error e)
    ∧ (VALID_EVENT_TYPES.contains lae.eventType = true →
        validateFn resources fnName lae = Except.error (VErr.incompleteDistRef i)) := by
  constructor
  · by_cases hevt : VALID_EVENT_TYPES.contains lae.eventType = true
    · refine ⟨VErr.incompleteDistRef i, ?_⟩
      simp only [validateFn, hid, hname, hevt]
      simp
    · have hevt2 : VALID_EVENT_TYPES.contains lae.eventType = false :=
        Bool.not_eq_true _ ▸ Bool.eq_false_iff.mpr hevt
      refine ⟨VErr.invalidEventType lae.eventType, ?_⟩
      simp only [validateFn, hevt2]
      simp
  · intro hevt
    simp only [validateFn, hid, hname, hevt]
    simp

theorem claim8_witness :
    validateFn ([] : Template) "fn1" ⟨some "E123", none, "origin-request"⟩
      = Except.error (VErr.incompleteDistRef "E123") :=
  (claim8_incomplete_reference [] "fn1" ⟨some "E123", none, "origin-request"⟩ "E123"
    (by decide) (by decide)).2 (by decide)

theorem validatePhase_error (template : Template) :
    ∀ functions : List (String × FnDef),
      (∃ p ∈ functions, ∃ lae, p.2.lambdaAtEdge = some lae
        ∧ ∃ e, validateFn template p.1 lae = Except.error e) →
      ∃ e2, validatePhase template functions = Except.error e2 := by
  intro functions
  induction functions with
  | nil =>
      rintro ⟨p, hp, _⟩
      simp at hp
  | cons q rest ih =>
      rintro ⟨p, hp, lae, hlae, e, he⟩
      rcases List.mem_cons.mp hp with heq | hpr
      · subst heq
        exact ⟨e, by simp [validatePhase, hlae, he]⟩
      · cases hq : q.2.lambdaAtEdge with
        | none =>
            obtain ⟨e2, he2⟩ := ih ⟨p, hpr, lae, hlae, e, he⟩
            exact ⟨e2, by simp [validatePhase, hq, he2]⟩
        | some laeq =>
            cases hvq : validateFn template q.1 laeq with
            | error eq2 => exact ⟨eq2, by simp [validatePhase, hq, hvq]⟩
            | ok pa =>
                obtain ⟨e2, he2⟩ := ih ⟨p, hpr, lae, hlae, e, he⟩
                exact ⟨e2, by simp [validatePhase, hq, hvq, he2]⟩

/-- Claim C10: if validation of any declaration carrying the annex fails
(invalid event type, missing or incomplete distribution reference, or wrong
resource type), then `_modifyLambdaFunctions` as a whole throws a validation
error: no (even partial) pending-association list is assigned and no
environment variables are stripped from the template, because the
assignment and the strip phase run only after the validation reduce has
completed. -/
theorem claim10_validation_failure_atomic (functions : List (String × FnDef))
    (template : Template)
    (h : ∃ p ∈ functions, ∃ lae, p.2.lambdaAtEdge = some lae
        ∧ ∃ e, validateFn template p.1 lae = Except.error e) :
    ∃ e2 : VErr, modifyLambdaFunctions functions template
        = Except.error (JsError.validation e2) := by
  obtain ⟨e2, he2⟩ := validatePhase_error template functions h
  exact ⟨e2, by simp [modifyLambdaFunctions, he2]⟩

theorem claim10_witness :
    ∃ e2 : VErr,
      modifyLambdaFunctions
          [("good", ⟨some ⟨none, some "MyBucket", "viewer-request"⟩⟩),
           ("bad", ⟨some ⟨some "E123", none, "oops-request"⟩⟩)]
          c7template
        = Except.error (JsError.validation e2) :=
  claim10_validation_failure_atomic _ c7template
    ⟨("bad", ⟨some ⟨some "E123", none, "oops-request"⟩⟩), by decide,
     ⟨some "E123", none, "oops-request"⟩, rfl,
     VErr.invalidEventType "oops-request", rfl⟩

theorem jsObjSet_absent {α : Type} (k : String) (v : α) :
    ∀ m : List (String × α), (∀ q ∈ m, q.1 ≠ k) →
      jsObjSet m k v = m ++ [(k, v)] := by
  intro m
  induction m with
  | nil => intro _; rfl
  | cons q rest ih =>
      intro hq
      unfold jsObjSet
      rw [if_neg (by simpa using hq q (List.mem_cons_self _ _))]
      rw [ih (fun x hx => hq x (List.mem_cons_of_mem _ hx))]
      rfl

theorem buildExisting_eq :
    ∀ (pending : List PendingAssoc) (memo : List (String × DistInfo)),
      (∀ p ∈ pending, truthyOpt p.distributionID = true) →
      (pending.map (fun p => p.fnLogicalName)).Nodup →
      (∀ p ∈ pending, ∀ q ∈ memo, q.1 ≠ p.fnLogicalName) →
      pending.foldl
        (fun memo p =>
          if truthyOpt p.distributionID then
            jsObjSet memo p.fnLogicalName ⟨p.distributionID.getD "", p.distLogicalName⟩
          else memo)
        memo
      = memo ++ pending.map (fun p =>
          (p.fnLogicalName, (⟨p.distributionID.getD "", p.distLogicalName⟩ : DistInfo))) := by
  intro pending
  induction pending with
  | nil => intro memo _ _ _; simp
  | cons p rest ih =>
      intro memo hall hnodup hdisj
      rw [List.foldl_cons]
      rw [if_pos (hall p (List.mem_cons_self _ _))]
      rw [jsObjSet_absent _ _ memo (fun q hq => hdisj p (List.mem_cons_self _ _) q hq)]
      have hnodup2 : (p.fnLogicalName :: rest.map (fun x => x.fnLogicalName)).Nodup := by
        simpa using hnodup
      have hnd := List.nodup_cons.mp hnodup2
      have hdisj2 : ∀ x ∈ rest,
          ∀ q ∈ memo ++ [(p.fnLogicalName,
              (⟨p.distributionID.getD "", p.distLogicalName⟩ : DistInfo))],
            q.1 ≠ x.fnLogicalName := by
        intro x hx q hq
        rcases List.mem_append.mp hq with h1 | h2
        · exact hdisj x (List.mem_cons_of_mem _ hx) q h1
        · have hq2 : q = (p.fnLogicalName,
              (⟨p.distributionID.getD "", p.distLogicalName⟩ : DistInfo)) := by
            simpa using h2
          subst hq2
          intro he
          exact hnd.1 (by
            have he2 : p.fnLogicalName = x.fnLogicalName := he
            rw [he2]
            exact List.mem_map.mpr ⟨x, hx, rfl⟩)
      rw [ih (memo ++ [(p.fnLogicalName,
            (⟨p.distributionID.getD "", p.distLogicalName⟩ : DistInfo))])
        (fun x hx => hall x (List.mem_cons_of_mem _ hx)) hnd.2 hdisj2]
      simp

/-- Claim C6: when every pending association already carries a concrete
(truthy) backend distribution identifier — the pending list having distinct
function logical names, as guaranteed by its construction from the function
map — the resolver returns the mapping built from those identifiers and
never issues the describe-stack-resources introspection call. -/
theorem claim6_resolver_skips_introspection (pending : List PendingAssoc)
    (stackResources : List StackResource) (stackName : String)
    (hall : ∀ p ∈ pending, truthyOpt p.distributionID = true)
    (hnodup : (pending.map (fun p => p.fnLogicalName)).Nodup) :
    (getDistributionPhysicalIDs pending stackResources stackName).2 = []
    ∧ (getDistributionPhysicalIDs pending stackResources stackName).1
        = Except.ok (pending.map (fun p =>
            (p.fnLogicalName,
             (⟨p.distributionID.getD "", p.distLogicalName⟩ : DistInfo)))) := by
  have hbuild := buildExisting_eq pending [] hall hnodup (by simp)
  simp only [getDistributionPhysicalIDs, hbuild]
  simp

theorem claim6_witness :
    (getDistributionPhysicalIDs c6pending [] "my-stack").2 = []
    ∧ (getDistributionPhysicalIDs c6pending [] "my-stack").1
        = Except.ok
            [("Fn1LambdaFunction", ⟨"E111", some "Dist1"⟩),
             ("Fn2LambdaFunction", ⟨"E222", some "Dist2"⟩)] :=
  claim6_resolver_skips_introspection c6pending [] "my-stack" (by decide) (by decide)

end SlsEdge
